import Mathlib

/-!
Verification of the budget-app ledger engine against its specification.

The definitions below are shallow embeddings of the TypeScript source:

* `src/src/context/BudgetContext.tsx` — ledger store (`simplefinSync`
  dedup/merge, `generateRecurringForMonth`, `deleteDebt`, `deleteAsset`,
  `editTransaction`);
* `src/src/components/DebtsManager.tsx` — `getDebtStats`;
* the `debtComputed` memo of the SimpleFIN profile modal;
* `src/src/components/SummaryCards.tsx` — the `cashflow` memo;
* `src/functions/api/sync.ts` (latest revision in the file) — the SimpleFIN
  `claim` / `disconnect` / `sync` actions, window planning and the
  request-cap check.

JavaScript numbers are modelled as `ℚ`, epoch seconds as `ℤ`, and
JavaScript strings as `String`.  Monetary amounts in the source are plain
JS numbers; none of the claims depend on float rounding, so exact
rationals are used.  `x || dflt` on strings is modelled by `jsOr`
(empty string is the only falsy string value that occurs).
-/

namespace BudgetApp

/-- JS `x || dflt` for strings: the empty string is falsy. -/
def jsOr (s dflt : String) : String := if s = "" then dflt else s

/-- JS `String(n).padStart(2, '0')` for a natural number (used on day
numbers, which are at most two digits here). -/
def pad2 (n : Nat) : String := if n < 10 then "0" ++ toString n else toString n

/-- JS `String.prototype.startsWith`: code-unit prefix test, modelled on the
character list of the string. -/
def strStartsWith (s p : String) : Bool := s.data.take p.length == p.data

/-- Lexicographic comparison of character lists by code point. -/
def lexLt : List Char → List Char → Bool
  | [], [] => false
  | [], _ :: _ => true
  | _ :: _, [] => false
  | a :: as, b :: bs =>
    if a.toNat < b.toNat then true
    else if b.toNat < a.toNat then false
    else lexLt as bs

/-- JS `a < b` on strings: lexicographic by code unit. -/
def jsStrLt (a b : String) : Bool := lexLt a.data b.data

/-- The whitespace characters `String.prototype.trim` removes (the ASCII
ones; the entries the fingerprint sees are ordinary text). -/
def isJsSpace (c : Char) : Bool :=
  c = ' ' || c = '\t' || c = '\n' || c = '\r' || c = '\x0b' || c = '\x0c'

/-- JS `String.prototype.trim`, on the character list. -/
def jsTrim (s : String) : String :=
  ⟨((s.data.dropWhile isJsSpace).reverse.dropWhile isJsSpace).reverse⟩

/-- JS `String.prototype.toLowerCase`, on the character list. -/
def jsToLower (s : String) : String := ⟨s.data.map Char.toLower⟩

/-- JS `Number.prototype.toFixed(2)`: round to the closest hundredth, ties
going to the larger value (ECMA-262 picks the larger candidate `n`), then
print with exactly two decimals.  The rounded value `⌊q·100 + 1/2⌋` is
computed on the numerator and denominator as
`⌊(200·num + den) / (2·den)⌋`. -/
def toFixed2 (q : ℚ) : String :=
  let scaled : ℤ := (200 * q.num + (q.den : ℤ)).fdiv (2 * (q.den : ℤ))
  let sign := if scaled < 0 then "-" else ""
  sign ++ toString (scaled.natAbs / 100) ++ "." ++ pad2 (scaled.natAbs % 100)

/-! ## Data model (`BudgetContext.tsx`)

`type` is kept as a raw string: the source compares it with string
literals and still accepts the legacy `"debt"` alias as well as
`"debt-charge"` values that are outside the declared TS union. -/

structure Transaction where
  id : String
  date : String
  description : String
  amount : ℚ
  type : String
  category : String
  debtAccountId : Option String := none
  assetAccountId : Option String := none
  recurringId : Option String := none
deriving DecidableEq, Repr

structure DebtAccount where
  id : String
  name : String
  startingBalance : ℚ
deriving DecidableEq, Repr

structure AssetAccount where
  id : String
  name : String
  startingBalance : ℚ
deriving DecidableEq, Repr

structure RecurringRule where
  id : String
  enabled : Bool
  description : String
  amount : ℚ
  type : String
  category : String
  dayOfMonth : ℤ
  startMonth : String
  debtAccountId : Option String := none
  assetAccountId : Option String := none
deriving DecidableEq, Repr

/-! ## Debt balance derivations (C2) -/

/-- Result record of `getDebtStats` in `DebtsManager.tsx`. -/
structure DebtStats where
  current : ℚ
  payments : ℚ
  interest : ℚ
deriving DecidableEq, Repr

/-- Embedding of `getDebtStats` in `DebtsManager.tsx` (lines 38–57): filters the ledger to
the entries linked to the account and folds their amounts.  Note that no
`debt-charge` term appears: `current = initial - payments + interest`. -/
def getDebtStats (transactions : List Transaction) (debtId : String)
    (initial : ℚ) : DebtStats :=
  let debtTx := transactions.filter (fun t => t.debtAccountId = some debtId)
  let payments := (debtTx.filter
    (fun t => t.type = "debt-payment" || t.type = "debt")).foldl
    (fun sum t => sum + t.amount) 0
  let interest := (debtTx.filter
    (fun t => t.type = "debt-interest")).foldl (fun sum t => sum + t.amount) 0
  { current := initial - payments + interest, payments := payments,
    interest := interest }

/-- The `debtComputed` memo of the SimpleFIN profile modal (the `current`
component): `current = startingBalance + charges - payments + interest`.
The display-only `interest30`/`aprPct` fields of the memo are not modelled;
no claim mentions them. -/
def debtComputedCurrent (transactions : List Transaction) (debtId : String)
    (startingBalance : ℚ) : ℚ :=
  let debtTx := transactions.filter (fun t => t.debtAccountId = some debtId)
  let payments := (debtTx.filter
    (fun t => t.type = "debt-payment" || t.type = "debt")).foldl
    (fun sum t => sum + t.amount) 0
  let charges := (debtTx.filter
    (fun t => t.type = "debt-charge")).foldl (fun sum t => sum + t.amount) 0
  let interest := (debtTx.filter
    (fun t => t.type = "debt-interest")).foldl (fun sum t => sum + t.amount) 0
  startingBalance + charges - payments + interest

/-- Spec-side sum: total amount of ledger entries linked to `debtId` whose
type satisfies `p`.  Written with `map`/`sum`, independently of the
`reduce` folds of the source. -/
def linkedSum (transactions : List Transaction) (debtId : String)
    (p : String → Bool) : ℚ :=
  ((transactions.filter
    (fun t => t.debtAccountId = some debtId && p t.type)).map
    (fun t => t.amount)).sum

/-- The debt-balance formula exactly as claim C2 states it:
`S + charges - payments + interest`, payments including the legacy
`debt` alias. -/
def claimDebtCurrent (S : ℚ) (transactions : List Transaction)
    (debtId : String) : ℚ :=
  S + linkedSum transactions debtId (fun ty => ty = "debt-charge")
    - linkedSum transactions debtId (fun ty => ty = "debt-payment" || ty = "debt")
    + linkedSum transactions debtId (fun ty => ty = "debt-interest")

/-! ## Helper lemmas on folded sums -/

theorem foldl_add_amount (l : List Transaction) (a : ℚ) :
    l.foldl (fun sum t => sum + t.amount) a = a + (l.map (fun t => t.amount)).sum := by
  induction l generalizing a with
  | nil => simp
  | cons t l ih => simp [List.foldl_cons, ih, add_assoc]

theorem filter_filter_amount (transactions : List Transaction) (debtId : String)
    (p : String → Bool) :
    ((transactions.filter (fun t => t.debtAccountId = some debtId)).filter
        (fun t => p t.type)).foldl (fun sum t => sum + t.amount) 0
      = linkedSum transactions debtId p := by
  rw [foldl_add_amount, zero_add, linkedSum, List.filter_filter]
  congr 2
  apply List.filter_congr
  intro t _
  exact Bool.and_comm _ _

/-! ## Ledger store mutations (`BudgetContext.tsx`) -/

/-- The per-user client state that `deleteDebt` / `deleteAsset` update. -/
structure Store where
  transactions : List Transaction
  debts : List DebtAccount
  assets : List AssetAccount
  recurring : List RecurringRule
deriving DecidableEq, Repr

/-- Embedding of `editTransaction` in `BudgetContext.tsx`: replace the fields of the entry
with the given id, keeping the id. -/
def editTransaction (id : String) (updated : Transaction)
    (txs : List Transaction) : List Transaction :=
  txs.map (fun t => if t.id = id then { updated with id := id } else t)

/-- Embedding of `deleteDebt` in `BudgetContext.tsx` (lines 212–216): drop the account,
clear `debtAccountId` on transactions and recurring rules that reference
it. -/
def deleteDebt (id : String) (s : Store) : Store :=
  { s with
    debts := s.debts.filter (fun d => !(d.id = id)),
    transactions := s.transactions.map (fun t =>
      if t.debtAccountId = some id then { t with debtAccountId := none } else t),
    recurring := s.recurring.map (fun r =>
      if r.debtAccountId = some id then { r with debtAccountId := none } else r) }

/-- Embedding of `deleteAsset` in `BudgetContext.tsx` (lines 226–230): drop the account,
clear `assetAccountId` on transactions and recurring rules that reference
it. -/
def deleteAsset (id : String) (s : Store) : Store :=
  { s with
    assets := s.assets.filter (fun a => !(a.id = id)),
    transactions := s.transactions.map (fun t =>
      if t.assetAccountId = some id then { t with assetAccountId := none } else t),
    recurring := s.recurring.map (fun r =>
      if r.assetAccountId = some id then { r with assetAccountId := none } else r) }

/-- Fieldwise relation between an original transaction and its image after
a debt-account deletion: every field except `debtAccountId` unchanged,
`debtAccountId` cleared exactly for entries that referenced the deleted
account. -/
def DebtUnlinked (accId : String) (t t' : Transaction) : Prop :=
  t'.id = t.id ∧ t'.date = t.date ∧ t'.description = t.description
    ∧ t'.amount = t.amount ∧ t'.type = t.type ∧ t'.category = t.category
    ∧ t'.assetAccountId = t.assetAccountId ∧ t'.recurringId = t.recurringId
    ∧ t'.debtAccountId = (if t.debtAccountId = some accId then none else t.debtAccountId)

/-- Same relation for recurring rules under a debt-account deletion. -/
def DebtUnlinkedRule (accId : String) (r r' : RecurringRule) : Prop :=
  r'.id = r.id ∧ r'.enabled = r.enabled ∧ r'.description = r.description
    ∧ r'.amount = r.amount ∧ r'.type = r.type ∧ r'.category = r.category
    ∧ r'.dayOfMonth = r.dayOfMonth ∧ r'.startMonth = r.startMonth
    ∧ r'.assetAccountId = r.assetAccountId
    ∧ r'.debtAccountId = (if r.debtAccountId = some accId then none else r.debtAccountId)

/-- Fieldwise relation under an asset-account deletion. -/
def AssetUnlinked (accId : String) (t t' : Transaction) : Prop :=
  t'.id = t.id ∧ t'.date = t.date ∧ t'.description = t.description
    ∧ t'.amount = t.amount ∧ t'.type = t.type ∧ t'.category = t.category
    ∧ t'.debtAccountId = t.debtAccountId ∧ t'.recurringId = t.recurringId
    ∧ t'.assetAccountId = (if t.assetAccountId = some accId then none else t.assetAccountId)

/-- Same relation for recurring rules under an asset-account deletion. -/
def AssetUnlinkedRule (accId : String) (r r' : RecurringRule) : Prop :=
  r'.id = r.id ∧ r'.enabled = r.enabled ∧ r'.description = r.description
    ∧ r'.amount = r.amount ∧ r'.type = r.type ∧ r'.category = r.category
    ∧ r'.dayOfMonth = r.dayOfMonth ∧ r'.startMonth = r.startMonth
    ∧ r'.debtAccountId = r.debtAccountId
    ∧ r'.assetAccountId = (if r.assetAccountId = some accId then none else r.assetAccountId)

/-- C2 counterexample: a single linked `debt-charge` of 100 on an account
with starting balance 0.  The claimed formula gives `0 + 100 - 0 + 0 = 100`,
but the `DebtsManager` derivation (`getDebtStats`, one of the two derived
debt balances in the code) has no charges term and returns 0. -/
theorem C2_counterexample :
    let chargeTx : Transaction :=
      { id := "c1", date := "2025-01-05", description := "Charge",
        amount := 100, type := "debt-charge", category := "Uncategorized",
        debtAccountId := some "d1" }
    (getDebtStats [chargeTx] "d1" 0).current = 0
      ∧ claimDebtCurrent 0 [chargeTx] "d1" = 100
      ∧ (getDebtStats [chargeTx] "d1" 0).current ≠ claimDebtCurrent 0 [chargeTx] "d1" := by
  refine ⟨?_, ?_, ?_⟩ <;>
    simp [getDebtStats, claimDebtCurrent, linkedSum, List.filter_cons]

/-- C2 amended: the SimpleFIN profile-modal derivation (`debtComputed`)
satisfies `current = S + charges - payments + interest` (payments include
the legacy `debt` alias) for every account and ledger; the `DebtsManager`
derivation (`getDebtStats`) computes `current = S - payments + interest`
with no charges term, so it agrees with the claimed formula exactly when
the account has no linked `debt-charge` amount; an account with zero
linked entries derives `current = S` under both. -/
theorem C2_debtBalance_amended (transactions : List Transaction)
    (debtId : String) (S : ℚ) :
    debtComputedCurrent transactions debtId S = claimDebtCurrent S transactions debtId
    ∧ (getDebtStats transactions debtId S).current
        = S - linkedSum transactions debtId (fun ty => ty = "debt-payment" || ty = "debt")
          + linkedSum transactions debtId (fun ty => ty = "debt-interest")
    ∧ (linkedSum transactions debtId (fun ty => ty = "debt-charge") = 0 →
        (getDebtStats transactions debtId S).current = claimDebtCurrent S transactions debtId)
    ∧ (transactions.filter (fun t => t.debtAccountId = some debtId) = [] →
        debtComputedCurrent transactions debtId S = S
          ∧ (getDebtStats transactions debtId S).current = S) := by
  have hpay := filter_filter_amount transactions debtId
    (fun ty => ty = "debt-payment" || ty = "debt")
  have hchg := filter_filter_amount transactions debtId (fun ty => ty = "debt-charge")
  have hint := filter_filter_amount transactions debtId (fun ty => ty = "debt-interest")
  refine ⟨?_, ?_, ?_, ?_⟩
  · simp only [debtComputedCurrent, claimDebtCurrent]
    rw [hpay, hchg, hint]
  · simp only [getDebtStats]
    rw [hpay, hint]
  · intro h0
    simp only [getDebtStats, claimDebtCurrent]
    rw [hpay, hint, h0]
    ring
  · intro hnil
    constructor
    · simp [debtComputedCurrent, hnil]
    · simp [getDebtStats, hnil]

/-- Witness for `C2_debtBalance_amended`: instantiated on a ledger with one
payment of 200 and one interest entry of 15 linked to an account with
`S = 1000` (the spec's own worked example: `current = 815`) where the
no-charges hypothesis of the third conjunct holds. -/
theorem C2_debtBalance_amended_witness :
    let pay : Transaction :=
      { id := "p", date := "2025-02-01", description := "Payment",
        amount := 200, type := "debt-payment", category := "Uncategorized",
        debtAccountId := some "d1" }
    let intr : Transaction :=
      { id := "i", date := "2025-02-02", description := "Interest",
        amount := 15, type := "debt-interest", category := "Uncategorized",
        debtAccountId := some "d1" }
    (getDebtStats [pay, intr] "d1" 1000).current = claimDebtCurrent 1000 [pay, intr] "d1"
      ∧ (getDebtStats [pay, intr] "d1" 1000).current = 815 := by
  intro pay intr
  refine ⟨(C2_debtBalance_amended [pay, intr] "d1" 1000).2.2.1
    (by simp [linkedSum, List.filter_cons]),
    by simp [getDebtStats, List.filter_cons]; norm_num⟩

theorem forall₂_map_self {α β : Type} {R : α → β → Prop} {f : α → β}
    (l : List α) (h : ∀ x ∈ l, R x (f x)) : List.Forall₂ R l (l.map f) := by
  induction l with
  | nil => exact List.Forall₂.nil
  | cons a l ih =>
    exact List.Forall₂.cons (h a (List.mem_cons_self a l))
      (ih (fun x hx => h x (List.mem_cons_of_mem a hx)))

/-- C9: deleting a debt (resp. asset) account removes only that account
from the account list; no transaction or rule is deleted; every
transaction and rule keeps all of its fields unchanged except that a
reference to the deleted account is cleared; the other store components
are untouched. -/
theorem C9_delete_unlinks (s : Store) (accId : String) :
    (List.Forall₂ (DebtUnlinked accId) s.transactions (deleteDebt accId s).transactions
      ∧ List.Forall₂ (DebtUnlinkedRule accId) s.recurring (deleteDebt accId s).recurring
      ∧ (deleteDebt accId s).transactions.length = s.transactions.length
      ∧ (deleteDebt accId s).recurring.length = s.recurring.length
      ∧ (∀ d ∈ (deleteDebt accId s).debts, d ∈ s.debts ∧ d.id ≠ accId)
      ∧ (∀ d ∈ s.debts, d.id ≠ accId → d ∈ (deleteDebt accId s).debts)
      ∧ (deleteDebt accId s).assets = s.assets)
    ∧ (List.Forall₂ (AssetUnlinked accId) s.transactions (deleteAsset accId s).transactions
      ∧ List.Forall₂ (AssetUnlinkedRule accId) s.recurring (deleteAsset accId s).recurring
      ∧ (deleteAsset accId s).transactions.length = s.transactions.length
      ∧ (deleteAsset accId s).recurring.length = s.recurring.length
      ∧ (∀ a ∈ (deleteAsset accId s).assets, a ∈ s.assets ∧ a.id ≠ accId)
      ∧ (∀ a ∈ s.assets, a.id ≠ accId → a ∈ (deleteAsset accId s).assets)
      ∧ (deleteAsset accId s).debts = s.debts) := by
  constructor
  · refine ⟨?_, ?_, ?_, ?_, ?_, ?_, rfl⟩
    · apply forall₂_map_self
      intro t _
      by_cases h : t.debtAccountId = some accId <;>
        simp [DebtUnlinked, h]
    · apply forall₂_map_self
      intro r _
      by_cases h : r.debtAccountId = some accId <;>
        simp [DebtUnlinkedRule, h]
    · simp [deleteDebt]
    · simp [deleteDebt]
    · intro d hd
      simp only [deleteDebt, List.mem_filter] at hd
      refine ⟨hd.1, ?_⟩
      simpa using hd.2
    · intro d hd hne
      simp only [deleteDebt, List.mem_filter]
      exact ⟨hd, by simpa using hne⟩
  · refine ⟨?_, ?_, ?_, ?_, ?_, ?_, rfl⟩
    · apply forall₂_map_self
      intro t _
      by_cases h : t.assetAccountId = some accId <;>
        simp [AssetUnlinked, h]
    · apply forall₂_map_self
      intro r _
      by_cases h : r.assetAccountId = some accId <;>
        simp [AssetUnlinkedRule, h]
    · simp [deleteAsset]
    · simp [deleteAsset]
    · intro a ha
      simp only [deleteAsset, List.mem_filter] at ha
      refine ⟨ha.1, ?_⟩
      simpa using ha.2
    · intro a ha hne
      simp only [deleteAsset, List.mem_filter]
      exact ⟨ha, by simpa using hne⟩

/-- Witness for `C9_delete_unlinks`: a concrete store with one referencing
and one non-referencing transaction; the membership conjunct is discharged
at a concrete account. -/
theorem C9_delete_unlinks_witness :
    let t1 : Transaction :=
      { id := "t1", date := "2025-01-01", description := "Pay", amount := 5,
        type := "debt-payment", category := "Debt", debtAccountId := some "d1" }
    let t2 : Transaction :=
      { id := "t2", date := "2025-01-02", description := "Food", amount := 3,
        type := "expense", category := "Food" }
    let d1 : DebtAccount := { id := "d1", name := "Loan", startingBalance := 100 }
    let d2 : DebtAccount := { id := "d2", name := "Card", startingBalance := 50 }
    let s : Store := { transactions := [t1, t2], debts := [d1, d2], assets := [], recurring := [] }
    (deleteDebt "d1" s).debts = [d2]
      ∧ (deleteDebt "d1" s).transactions
          = [{ t1 with debtAccountId := none }, t2]
      ∧ d2 ∈ (deleteDebt "d1" s).debts := by
  intro t1 t2 d1 d2 s
  refine ⟨by simp [deleteDebt, List.filter_cons, t1, t2, d1, d2, s],
    by simp [deleteDebt, t1, t2, d1, d2, s],
    ?_⟩
  exact ((C9_delete_unlinks s "d1").1.2.2.2.2.2.1 d2
    (by simp [d1, d2, s]) (by simp [d2]))

/-! ## Recurring rule projection (C5, `generateRecurringForMonth`) -/

/-- Gregorian leap-year rule; `new Date(y, m, 0).getDate()` follows it for
four-digit years (the only years a valid `YYYY-MM` key denotes). -/
def isLeapYear (y : Nat) : Bool := (y % 4 == 0 && y % 100 != 0) || y % 400 == 0

/-- Number of days of month `m` (1–12) of year `y`, as computed by
`new Date(year, monthIndex + 1, 0).getDate()` in the source. -/
def daysInMonth (y m : Nat) : Nat :=
  if m = 2 then (if isLeapYear y then 29 else 28)
  else if m = 4 ∨ m = 6 ∨ m = 9 ∨ m = 11 then 30 else 31

/-- JS `String.prototype.split` with a one-character separator, on the
character list of the string (`"".split(sep)` is `[""]`, a trailing
separator yields a trailing empty part, as in JS). -/
def splitOnChar (sep : Char) : List Char → List (List Char)
  | [] => [[]]
  | c :: rest =>
    let r := splitOnChar sep rest
    if c = sep then [] :: r
    else
      match r with
      | h :: t => (c :: h) :: t
      | [] => [[c]]

/-- JS `Number` restricted to the all-digit strings that a valid `YYYY-MM`
key produces; any other part (empty, signed, non-digit) yields `NaN` or a
value the source's range check rejects, modelled as `none`. -/
def digitsToNat? (l : List Char) : Option Nat :=
  if l ≠ [] ∧ l.all Char.isDigit then
    some (l.foldl (fun n c => 10 * n + (c.toNat - 48)) 0)
  else none

/-- The validity check of `generateRecurringForMonth`:
`yyyyMM.split('-')`, `Number` on the first two parts, and the
`Number.isFinite`/month-index range test (`0 ≤ monthIndex ≤ 11`, i.e.
`1 ≤ m ≤ 12`). -/
def parseTargetMonth (yyyyMM : String) : Option (Nat × Nat) :=
  match splitOnChar '-' yyyyMM.data with
  | yStr :: mStr :: _ =>
    match digitsToNat? yStr, digitsToNat? mStr with
    | some y, some m => if 1 ≤ m ∧ m ≤ 12 then some (y, m) else none
    | _, _ => none
  | _ => none

/-- JS `Math.min(Math.max(1, rule.dayOfMonth), daysInMonth)`. -/
def clampDay (d : ℤ) (dim : Nat) : ℤ := min (max 1 d) (dim : ℤ)

/-- The generated entry date `` `${yyyyMM}-${String(day).padStart(2, '0')}` ``. -/
def ruleDate (yyyyMM : String) (d : ℤ) (dim : Nat) : String :=
  yyyyMM ++ ("-" ++ pad2 (clampDay d dim).toNat)

/-- The predicate of the `alreadyExists` check: an entry generated for
rule `ruleId` in month `yyyyMM` (`t.recurringId === ruleId &&
t.date.startsWith(yyyyMM)`). -/
def genMarker (ruleId yyyyMM : String) (t : Transaction) : Bool :=
  t.recurringId = some ruleId && strStartsWith t.date yyyyMM

/-- The `alreadyExists` check of the source: some entry of the ledger snapshot
carries the rule's id and a date in the target month. -/
def alreadyExists (prev : List Transaction) (ruleId yyyyMM : String) : Bool :=
  prev.any (genMarker ruleId yyyyMM)

/-- A rule survives every `continue` of the generation loop: enabled, its
`startMonth` (when non-empty) is not after the target month, and no entry
for it exists yet in the snapshot. -/
def rulePasses (prev : List Transaction) (yyyyMM : String) (r : RecurringRule) : Bool :=
  r.enabled && !(r.startMonth ≠ "" && jsStrLt yyyyMM r.startMonth)
    && !(alreadyExists prev r.id yyyyMM)

/-- The transaction synthesized for a surviving rule. -/
def ruleEntry (yyyyMM : String) (dim : Nat) (r : RecurringRule) (id : String) :
    Transaction :=
  { id := id, date := ruleDate yyyyMM r.dayOfMonth dim,
    description := r.description, amount := r.amount, type := r.type,
    category := jsOr r.category "Uncategorized",
    debtAccountId := r.debtAccountId, assetAccountId := r.assetAccountId,
    recurringId := some r.id }

/-- Embedding of `generateRecurringForMonth` in `BudgetContext.tsx` (lines 248–286).
`ids` supplies the `crypto.randomUUID()` values in order. -/
def generateRecurringForMonth (recurring : List RecurringRule) (yyyyMM : String)
    (ids : Nat → String) (prev : List Transaction) : List Transaction :=
  match parseTargetMonth yyyyMM with
  | none => prev
  | some (y, m) =>
    let dim := daysInMonth y m
    let toAdd := ((recurring.filter (rulePasses prev yyyyMM)).enum).map
      (fun p => ruleEntry yyyyMM dim p.2 (ids p.1))
    prev ++ toAdd

/-! ### Lemmas for C5 -/

theorem strStartsWith_append (p x : String) : strStartsWith (p ++ x) p = true := by
  have hlen : p.data.length = p.length := rfl
  simp [strStartsWith, String.data_append, List.take_left' hlen]

theorem genMarker_ruleEntry (yyyyMM : String) (dim : Nat) (r : RecurringRule)
    (id ρ : String) :
    genMarker ρ yyyyMM (ruleEntry yyyyMM dim r id) = (r.id == ρ) := by
  by_cases h : r.id = ρ <;>
    simp [genMarker, ruleEntry, ruleDate, strStartsWith_append, h]

theorem mem_enumFrom_of_mem {α : Type} (a : α) :
    ∀ (l : List α) (n : Nat), a ∈ l → ∃ k, (k, a) ∈ List.enumFrom n l := by
  intro l
  induction l with
  | nil => intro n h; cases h
  | cons b l ih =>
    intro n h
    rcases List.mem_cons.mp h with h | h
    · exact ⟨n, by simp [h]⟩
    · obtain ⟨k, hk⟩ := ih (n + 1) h
      exact ⟨k, List.mem_cons_of_mem _ hk⟩

theorem countP_enumFrom {α : Type} (q : α → Bool) :
    ∀ (l : List α) (n : Nat),
      List.countP (fun p => q p.2) (List.enumFrom n l) = List.countP q l := by
  intro l
  induction l with
  | nil => intro n; rfl
  | cons a l ih =>
    intro n
    by_cases h : q a = true <;>
      simp [List.enumFrom, List.countP_cons, ih (n + 1), h]

theorem countP_id_le_one {l : List RecurringRule}
    (h : (l.map RecurringRule.id).Nodup) (ρ : String) :
    List.countP (fun r => r.id == ρ) l ≤ 1 := by
  induction l with
  | nil => simp
  | cons r l ih =>
    rw [List.map_cons, List.nodup_cons] at h
    by_cases hr : r.id = ρ
    · rw [List.countP_cons_of_pos _ _ (by simp [hr])]
      have hzero : List.countP (fun r' => r'.id == ρ) l = 0 := by
        rw [List.countP_eq_zero]
        intro r' hr'
        simp only [beq_iff_eq]
        intro hir
        exact h.1 (hr ▸ hir ▸ List.mem_map_of_mem RecurringRule.id hr')
      omega
    · rw [List.countP_cons_of_neg _ _ (by simp [hr])]
      exact ih h.2

/-- C5: for a valid target month and rules with distinct ids, generation is
idempotent (a second invocation on the ledger produced by the first
appends nothing); each rule ends up with at most one generated entry for
the month (given the ledger did not already hold more than one); and every
appended entry copies the rule's fields and is dated on `dayOfMonth`
clamped to the days of the target month. -/
theorem C5_generateRecurring (recurring : List RecurringRule) (yyyyMM : String)
    (ids ids2 : Nat → String) (prev : List Transaction) (y m : Nat)
    (hparse : parseTargetMonth yyyyMM = some (y, m))
    (hnodup : (recurring.map RecurringRule.id).Nodup) :
    generateRecurringForMonth recurring yyyyMM ids2
        (generateRecurringForMonth recurring yyyyMM ids prev)
      = generateRecurringForMonth recurring yyyyMM ids prev
    ∧ (∀ r ∈ recurring,
        prev.countP (genMarker r.id yyyyMM) ≤ 1 →
        (generateRecurringForMonth recurring yyyyMM ids prev).countP
            (genMarker r.id yyyyMM) ≤ 1)
    ∧ (∀ t ∈ (generateRecurringForMonth recurring yyyyMM ids prev).drop prev.length,
        ∃ r ∈ recurring, r.enabled = true ∧ t.recurringId = some r.id
          ∧ t.date = yyyyMM ++ ("-" ++ pad2 (clampDay r.dayOfMonth (daysInMonth y m)).toNat)
          ∧ t.description = r.description ∧ t.amount = r.amount ∧ t.type = r.type) := by
  set dim := daysInMonth y m with hdim
  set filtered := recurring.filter (rulePasses prev yyyyMM) with hfiltered
  set toAdd := filtered.enum.map (fun p => ruleEntry yyyyMM dim p.2 (ids p.1)) with htoAdd
  have hL1 : generateRecurringForMonth recurring yyyyMM ids prev = prev ++ toAdd := by
    simp only [generateRecurringForMonth, hparse]
  set L1 := prev ++ toAdd with hL1def
  -- every rule that passes the first round is represented in `toAdd`
  have hrep : ∀ r ∈ filtered, alreadyExists toAdd r.id yyyyMM = true := by
    intro r hrmem
    obtain ⟨k, hk⟩ := mem_enumFrom_of_mem r filtered 0 hrmem
    have hmem : ruleEntry yyyyMM dim r (ids k) ∈ toAdd := by
      rw [htoAdd]
      exact List.mem_map.mpr ⟨(k, r), hk, rfl⟩
    have hmark : genMarker r.id yyyyMM (ruleEntry yyyyMM dim r (ids k)) = true := by
      simp [genMarker_ruleEntry]
    exact List.any_eq_true.mpr ⟨_, hmem, hmark⟩
  -- after the first round, no rule passes
  have hnone : ∀ r ∈ recurring, rulePasses L1 yyyyMM r = false := by
    intro r hr
    have hsplit : alreadyExists L1 r.id yyyyMM
        = (alreadyExists prev r.id yyyyMM || alreadyExists toAdd r.id yyyyMM) := by
      simp [alreadyExists, hL1def, List.any_append]
    by_cases hpass : rulePasses prev yyyyMM r = true
    · have : alreadyExists L1 r.id yyyyMM = true := by
        rw [hsplit, hrep r (List.mem_filter.mpr ⟨hr, hpass⟩)]
        simp
      simp [rulePasses, this]
    · rw [Bool.not_eq_true] at hpass
      simp only [rulePasses, Bool.and_eq_false_iff] at hpass ⊢
      rcases hpass with (h | h) | h
      · exact Or.inl (Or.inl h)
      · exact Or.inl (Or.inr h)
      · refine Or.inr ?_
        have h' : alreadyExists prev r.id yyyyMM = true := by simpa using h
        rw [hsplit, h']
        simp
  have hfilterNil : recurring.filter (rulePasses L1 yyyyMM) = [] :=
    List.filter_eq_nil_iff.mpr (fun r hr => by simp [hnone r hr])
  refine ⟨?_, ?_, ?_⟩
  · rw [hL1]
    simp only [generateRecurringForMonth, hparse, ← hL1def, hfilterNil]
    simp
  · intro r hr hcnt
    rw [hL1, List.countP_append]
    have hcount : toAdd.countP (genMarker r.id yyyyMM)
        = filtered.countP (fun r' => r'.id == r.id) := by
      rw [htoAdd, List.countP_map]
      have hpt : ∀ p ∈ filtered.enum,
          ((genMarker r.id yyyyMM ∘ fun p => ruleEntry yyyyMM dim p.2 (ids p.1)) p = true
            ↔ (fun p : Nat × RecurringRule => p.2.id == r.id) p = true) := by
        intro p _
        simp [Function.comp, genMarker_ruleEntry]
      rw [List.countP_congr hpt]
      exact countP_enumFrom (fun r' => r'.id == r.id) filtered 0
    rw [hcount]
    by_cases hzero : prev.countP (genMarker r.id yyyyMM) = 0
    · have hle : filtered.countP (fun r' => r'.id == r.id) ≤ 1 := by
        calc filtered.countP (fun r' => r'.id == r.id)
            ≤ recurring.countP (fun r' => r'.id == r.id) :=
              (List.filter_sublist recurring).countP_le _
          _ ≤ 1 := countP_id_le_one hnodup r.id
      omega
    · have hpos : 0 < prev.countP (genMarker r.id yyyyMM) := Nat.pos_of_ne_zero hzero
      have halready : alreadyExists prev r.id yyyyMM = true := by
        obtain ⟨t, ht, hmark⟩ := List.countP_pos_iff.mp hpos
        exact List.any_eq_true.mpr ⟨t, ht, hmark⟩
      have hnofilter : filtered.countP (fun r' => r'.id == r.id) = 0 := by
        rw [List.countP_eq_zero]
        intro r' hr'
        have hpass := (List.mem_filter.mp hr').2
        simp only [beq_iff_eq]
        intro hid
        rw [rulePasses, hid, halready] at hpass
        simp at hpass
      omega
  · intro t ht
    rw [hL1, List.drop_left] at ht
    rw [htoAdd] at ht
    obtain ⟨p, hp, rfl⟩ := List.mem_map.mp ht
    have hsnd : p.2 ∈ filtered := by
      have := List.mem_map_of_mem Prod.snd hp
      rwa [List.enum_map_snd] at this
    have hmem := List.mem_filter.mp hsnd
    refine ⟨p.2, hmem.1, ?_, rfl, rfl, rfl, rfl, rfl⟩
    have hpass := hmem.2
    simp only [rulePasses, Bool.and_eq_true] at hpass
    exact hpass.1.1

/-- Witness for `C5_generateRecurring`: one enabled rule, empty ledger,
February 2025 with `dayOfMonth = 31` (clamped to 28). -/
theorem C5_generateRecurring_witness :
    let rule : RecurringRule :=
      { id := "r1", enabled := true, description := "Rent", amount := 900,
        type := "expense", category := "Rent", dayOfMonth := 31,
        startMonth := "2024-01" }
    let ids : Nat → String := fun k => "id" ++ toString k
    generateRecurringForMonth [rule] "2025-02" ids
        (generateRecurringForMonth [rule] "2025-02" ids [])
      = generateRecurringForMonth [rule] "2025-02" ids []
      ∧ (generateRecurringForMonth [rule] "2025-02" ids []).countP
          (genMarker "r1" "2025-02") ≤ 1
      ∧ (generateRecurringForMonth [rule] "2025-02" ids []).map
          (fun t => t.date) = ["2025-02-28"] := by
  intro rule ids
  have h := C5_generateRecurring [rule] "2025-02" ids ids [] 2025 2
    (by decide) (by simp)
  exact ⟨h.1, h.2.1 rule (by simp) (by simp), by decide⟩

/-! ## SimpleFIN ingestion and deduplication (C1, C6)

`BudgetContext.tsx`, `simplefinSync` (lines 645–690): the candidates
returned by the `/api/simplefin?action=sync` endpoint are filtered against
a fingerprint set seeded from the existing ledger and updated as
candidates are accepted, then mapped into ledger transactions. -/

/-- The shape of an incoming SimpleFIN candidate as the client reads it
(`ImportedTransaction` plus the `externalId` the server attaches). -/
structure Candidate where
  externalId : String
  date : String
  description : String
  amount : ℚ
  type : String
  category : String
  debtAccountId : Option String := none
  assetAccountId : Option String := none
  recurringId : Option String := none
deriving DecidableEq, Repr

/-- The argument record of the `fingerprint` closure. -/
structure FpFields where
  date : String
  type : String
  amount : ℚ
  description : String
  category : String

/-- The `fingerprint` closure of `simplefinSync`:
`` `${date}|${type}|${amt.toFixed(2)}|${desc.trim().toLowerCase()}|${cat.trim().toLowerCase()}` ``
(`Number(t.amount) || 0` is the identity on the rational model). -/
def fingerprint (f : FpFields) : String :=
  f.date ++ "|" ++ f.type ++ "|" ++ toFixed2 f.amount ++ "|"
    ++ jsToLower (jsTrim f.description) ++ "|" ++ jsToLower (jsTrim f.category)

/-- Fingerprint of an existing ledger transaction (the `existing` set). -/
def txFp (t : Transaction) : String :=
  fingerprint ⟨t.date, t.type, t.amount, t.description, t.category⟩

/-- Fingerprint of an incoming candidate as computed inside the `toAdd`
filter: `type` is `String(t.type || '')` (identity on strings), `category`
defaults to `"Uncategorized"`. -/
def candFp (c : Candidate) : String :=
  fingerprint ⟨c.date, c.type, c.amount, c.description, jsOr c.category "Uncategorized"⟩

/-- The `toAdd` filter: reject a candidate whose fingerprint is in the
seen set, otherwise accept it and add its fingerprint to the set. -/
def dedupFilter (seen : List String) : List Candidate → List Candidate
  | [] => []
  | c :: rest =>
    if candFp c ∈ seen then dedupFilter seen rest
    else c :: dedupFilter (candFp c :: seen) rest

/-- The `.map` that turns an accepted candidate into a ledger transaction.
Note that `externalId` is not among the produced fields. -/
def mapCandidate (c : Candidate) (today : String) (id : String) : Transaction :=
  { id := id, date := jsOr c.date today,
    description := jsOr c.description "Imported", amount := c.amount,
    type := jsOr c.type "expense", category := jsOr c.category "Uncategorized",
    debtAccountId := c.debtAccountId, assetAccountId := c.assetAccountId,
    recurringId := c.recurringId }

/-- The ledger update of `simplefinSync`: filter the incoming batch against the
fingerprints of the existing ledger, map survivors to transactions
(`ids` supplies the `crypto.randomUUID()` values), append. -/
def simplefinMerge (transactions : List Transaction) (incoming : List Candidate)
    (today : String) (ids : Nat → String) : List Transaction :=
  let toAdd := dedupFilter (transactions.map txFp) incoming
  transactions ++ (toAdd.enum.map (fun p => mapCandidate p.2 today (ids p.1)))

/-- A candidate whose `date`, `description` and `type` are non-empty; every
candidate produced by the server's feed mapping has this shape, and for
such candidates the fields used by the dedup fingerprint coincide with the
fields stored by `mapCandidate`. -/
def WellFormedCand (c : Candidate) : Prop :=
  c.date ≠ "" ∧ c.description ≠ "" ∧ c.type ≠ ""

/-! ### Lemmas on the dedup filter -/

theorem dedupFilter_subset (seen : List String) (cs : List Candidate) :
    ∀ c ∈ dedupFilter seen cs, c ∈ cs := by
  induction cs generalizing seen with
  | nil => intro c h; cases h
  | cons a cs ih =>
    intro c h
    rw [dedupFilter] at h
    by_cases hm : candFp a ∈ seen
    · rw [if_pos hm] at h
      exact List.mem_cons_of_mem a (ih seen c h)
    · rw [if_neg hm] at h
      rcases List.mem_cons.mp h with h | h
      · exact h ▸ List.mem_cons_self a cs
      · exact List.mem_cons_of_mem a (ih _ c h)

theorem dedupFilter_eq_nil (seen : List String) (cs : List Candidate)
    (h : ∀ c ∈ cs, candFp c ∈ seen) : dedupFilter seen cs = [] := by
  induction cs with
  | nil => rfl
  | cons a cs ih =>
    rw [dedupFilter, if_pos (h a (List.mem_cons_self a cs))]
    exact ih (fun c hc => h c (List.mem_cons_of_mem a hc))

theorem candFp_mem_seen_or_accepted (seen : List String) (cs : List Candidate) :
    ∀ c ∈ cs, candFp c ∈ seen ∨ candFp c ∈ (dedupFilter seen cs).map candFp := by
  induction cs generalizing seen with
  | nil => intro c h; cases h
  | cons a cs ih =>
    intro c h
    rw [dedupFilter]
    by_cases hm : candFp a ∈ seen
    · rw [if_pos hm]
      rcases List.mem_cons.mp h with rfl | h
      · exact Or.inl hm
      · exact ih seen c h
    · rw [if_neg hm, List.map_cons]
      rcases List.mem_cons.mp h with rfl | h
      · exact Or.inr (List.mem_cons_self _ _)
      · rcases ih (candFp a :: seen) c h with hs | hs
        · rcases List.mem_cons.mp hs with hs | hs
          · exact Or.inr (hs ▸ List.mem_cons_self _ _)
          · exact Or.inl hs
        · exact Or.inr (List.mem_cons_of_mem _ hs)

theorem dedupFilter_fps_nodup (seen : List String) (cs : List Candidate) :
    ((dedupFilter seen cs).map candFp).Nodup
      ∧ ∀ fp ∈ (dedupFilter seen cs).map candFp, fp ∉ seen := by
  induction cs generalizing seen with
  | nil => exact ⟨List.nodup_nil, by intro fp h; cases h⟩
  | cons a cs ih =>
    rw [dedupFilter]
    by_cases hm : candFp a ∈ seen
    · rw [if_pos hm]
      exact ih seen
    · rw [if_neg hm, List.map_cons]
      obtain ⟨hnd, hdisj⟩ := ih (candFp a :: seen)
      constructor
      · rw [List.nodup_cons]
        exact ⟨fun hmem => (hdisj _ hmem) (List.mem_cons_self _ _), hnd⟩
      · intro fp hfp
        rcases List.mem_cons.mp hfp with rfl | hfp
        · exact hm
        · exact fun hs => (hdisj fp hfp) (List.mem_cons_of_mem _ hs)

theorem txFp_mapCandidate {c : Candidate} (hwf : WellFormedCand c)
    (today id : String) : txFp (mapCandidate c today id) = candFp c := by
  obtain ⟨hd, hdesc, hty⟩ := hwf
  simp [txFp, candFp, mapCandidate, fingerprint, jsOr, hd, hdesc, hty]

theorem adds_map_txFp (accepted : List Candidate) (today : String)
    (ids : Nat → String) (hwf : ∀ c ∈ accepted, WellFormedCand c) :
    (accepted.enum.map (fun p => mapCandidate p.2 today (ids p.1))).map txFp
      = accepted.map candFp := by
  rw [List.map_map]
  have hcongr : ∀ p ∈ accepted.enum,
      (txFp ∘ fun p => mapCandidate p.2 today (ids p.1)) p = (candFp ∘ Prod.snd) p := by
    intro p hp
    have hsnd : p.2 ∈ accepted := by
      have := List.mem_map_of_mem Prod.snd hp
      rwa [List.enum_map_snd] at this
    exact txFp_mapCandidate (hwf p.2 hsnd) today (ids p.1)
  rw [List.map_congr_left hcongr, ← List.map_map, List.enum_map_snd]

/-- C6: merging the same batch twice in sequence yields the same ledger as
merging it once: on the second pass every candidate's fingerprint is
already present and the filter rejects the whole batch, and within one
pass the accepted candidates have pairwise-distinct fingerprints (the seen
set is updated as candidates are accepted).  The well-formedness
hypothesis (`date`, `description`, `type` non-empty) holds for every
candidate the feed endpoint produces (`serverCandidate_wellFormed`). -/
theorem C6_merge_idempotent (L : List Transaction) (batch : List Candidate)
    (today today2 : String) (ids ids2 : Nat → String)
    (hwf : ∀ c ∈ batch, WellFormedCand c) :
    simplefinMerge (simplefinMerge L batch today ids) batch today2 ids2
      = simplefinMerge L batch today ids
    ∧ dedupFilter ((simplefinMerge L batch today ids).map txFp) batch = []
    ∧ ((dedupFilter (L.map txFp) batch).map candFp).Nodup := by
  set accepted := dedupFilter (L.map txFp) batch with haccepted
  set adds := accepted.enum.map (fun p => mapCandidate p.2 today (ids p.1)) with hadds
  have hL1 : simplefinMerge L batch today ids = L ++ adds := rfl
  have hwfacc : ∀ c ∈ accepted, WellFormedCand c := by
    intro c hc
    exact hwf c (dedupFilter_subset _ _ c hc)
  have hS1 : (L ++ adds).map txFp = L.map txFp ++ accepted.map candFp := by
    rw [List.map_append, hadds, adds_map_txFp accepted today ids hwfacc]
  have hall : ∀ c ∈ batch, candFp c ∈ (L ++ adds).map txFp := by
    intro c hc
    rw [hS1]
    rcases candFp_mem_seen_or_accepted (L.map txFp) batch c hc with h | h
    · exact List.mem_append_left _ h
    · exact List.mem_append_right _ h
  have hnil : dedupFilter ((L ++ adds).map txFp) batch = [] :=
    dedupFilter_eq_nil _ _ hall
  refine ⟨?_, by rw [hL1]; exact hnil, (dedupFilter_fps_nodup _ _).1⟩
  rw [hL1]
  show (L ++ adds) ++ ((dedupFilter ((L ++ adds).map txFp) batch).enum.map
    (fun p => mapCandidate p.2 today2 (ids2 p.1))) = L ++ adds
  rw [hnil]
  simp

/-- Witness for `C6_merge_idempotent`: a batch with an internal duplicate
(same content fingerprint, different `externalId`) merged into an empty
ledger; one entry is added, and remerging the batch adds nothing. -/
theorem C6_merge_idempotent_witness :
    let c1 : Candidate :=
      { externalId := "simplefin:acc:1", date := "2025-03-01",
        description := "Coffee (Checking)", amount := 4, type := "expense",
        category := "Uncategorized" }
    let c2 : Candidate := { c1 with externalId := "simplefin:acc:2" }
    let ids : Nat → String := fun k => "u" ++ toString k
    (∀ c ∈ [c1, c2], WellFormedCand c)
      ∧ simplefinMerge (simplefinMerge [] [c1, c2] "2025-03-02" ids) [c1, c2] "2025-03-03" ids
          = simplefinMerge [] [c1, c2] "2025-03-02" ids
      ∧ (simplefinMerge [] [c1, c2] "2025-03-02" ids).length = 1 := by
  intro c1 c2 ids
  have hwf : ∀ c ∈ [c1, c2], WellFormedCand c := by
    intro c hc
    rcases List.mem_cons.mp hc with rfl | hc
    · exact ⟨by decide, by decide, by decide⟩
    · rcases List.mem_cons.mp hc with rfl | hc
      · exact ⟨by decide, by decide, by decide⟩
      · cases hc
  exact ⟨hwf,
    (C6_merge_idempotent [] [c1, c2] "2025-03-02" "2025-03-03" ids ids hwf).1,
    by decide⟩

/-! ## Server-side feed mapping (`functions/api/sync.ts`, `fetchChunk`) -/

/-- Days-since-epoch to Gregorian civil date (year, month, day); divisions
are truncating, matching the reference algorithm. -/
def civilFromDays (z0 : Int) : Int × Nat × Nat :=
  let z := z0 + 719468
  let era : Int := (if 0 ≤ z then z else z - 146096) / 146097
  let doe : Nat := (z - era * 146097).toNat
  let yoe : Nat := (doe - doe / 1460 + doe / 36524 - doe / 146096) / 365
  let doy : Nat := doe - (365 * yoe + yoe / 4 - yoe / 100)
  let mp : Nat := (5 * doy + 2) / 153
  let d : Nat := doy - (153 * mp + 2) / 5 + 1
  let m : Nat := if mp < 10 then mp + 3 else mp - 9
  ((yoe : Int) + era * 400 + (if m ≤ 2 then 1 else 0), m, d)

/-- Four-digit zero-padded year (ISO dates in the feed's range). -/
def pad4 (n : Nat) : String :=
  if n < 10 then "000" ++ toString n
  else if n < 100 then "00" ++ toString n
  else if n < 1000 then "0" ++ toString n
  else toString n

/-- Embedding of `toIsoDateFromEpochSeconds`:
`new Date(sec * 1000).toISOString().slice(0, 10)` (UTC calendar date). -/
def toIsoDateFromEpochSeconds (sec : Int) : String :=
  let c := civilFromDays (sec.fdiv 86400)
  pad4 c.1.toNat ++ ("-" ++ (pad2 c.2.1 ++ ("-" ++ pad2 c.2.2)))

/-- An incoming SimpleFIN feed transaction as `fetchChunk` reads it:
`posted`/`transacted_at` are `none` when absent or not a number, `amount`
is the numeric string after `Number(...)` (`none` = `NaN`). -/
structure FeedTxn where
  id : String
  posted : Option Int := none
  transacted_at : Option Int := none
  amount : Option ℚ
  description : String

/-- The `typeof x === 'number' && x > 0 ? x : fallback` chain for the posted
timestamp. -/
def postedEpoch (t : FeedTxn) : Int :=
  match t.posted with
  | some p => if 0 < p then p else
      (match t.transacted_at with
       | some q => if 0 < q then q else 0
       | none => 0)
  | none =>
      match t.transacted_at with
      | some q => if 0 < q then q else 0
      | none => 0

/-- The body of the per-transaction loop in `fetchChunk` (lines 683–704):
date from the posted timestamp (falling back to today), description
suffixed with the account name, absolute amount, `income`/`expense` by
sign, category `Uncategorized`, `externalId = simplefin:<acc>:<txid>`;
zero-amount entries are dropped (`none`). -/
def serverMapTxn (accId accName nowIsoDate : String) (t : FeedTxn) :
    Option Candidate :=
  let posted := postedEpoch t
  let isoDate := if posted = 0 then nowIsoDate else toIsoDateFromEpochSeconds posted
  let amt : ℚ := t.amount.getD 0
  let abs := |amt|
  if 0 < abs then
    some { externalId := "simplefin:" ++ accId ++ ":" ++ t.id,
           date := isoDate,
           description := jsOr t.description "Transaction" ++ (" (" ++ (accName ++ ")")),
           amount := abs,
           type := if 0 ≤ amt then "income" else "expense",
           category := "Uncategorized" }
  else none

theorem append_ne_empty_of_right (a b : String) (hb : b.data ≠ []) :
    a ++ b ≠ "" := by
  intro h
  have : (a ++ b).data = ("" : String).data := by rw [h]
  rw [String.data_append] at this
  exact hb (List.append_eq_nil.mp this).2

/-- Every candidate produced by the server's feed mapping is well-formed:
its date, description and type are non-empty strings (given today's date
string is non-empty).  This discharges the hypothesis of
`C6_merge_idempotent` for the actual SimpleFIN pipeline. -/
theorem serverCandidate_wellFormed (accId accName nowIsoDate : String)
    (t : FeedTxn) (c : Candidate) (hnow : nowIsoDate ≠ "")
    (h : serverMapTxn accId accName nowIsoDate t = some c) : WellFormedCand c := by
  rw [serverMapTxn] at h
  by_cases habs : (0 : ℚ) < |t.amount.getD 0|
  · rw [if_pos habs, Option.some_inj] at h
    refine ⟨?_, ?_, ?_⟩
    · rw [← h]
      by_cases hp : postedEpoch t = 0
      · simpa [hp] using hnow
      · simp only [if_neg hp, toIsoDateFromEpochSeconds]
        apply append_ne_empty_of_right
        simp
    · rw [← h]
      apply append_ne_empty_of_right
      simp
    · rw [← h]
      by_cases hs : (0 : ℚ) ≤ t.amount.getD 0 <;> simp [hs]
  · rw [if_neg habs] at h
    cases h

/-! ## C1: `externalId` and deduplication -/

/-- C1 counterexample.  The candidate `c0` is imported once
(`L0`), its ledger copy is then re-categorized locally
(`editTransaction`, as the spec allows for feed entries), and the same
feed candidate — identical `externalId` — arrives again on the next
sync.  The claim requires it to be treated as a duplicate; the code
appends it a second time because the dedup consults only the content
fingerprint (the ledger does not even retain `externalId`). -/
theorem C1_counterexample :
    let c0 : Candidate :=
      { externalId := "simplefin:acc1:t9", date := "2025-01-02",
        description := "Coffee (Checking)", amount := 4, type := "expense",
        category := "Uncategorized" }
    let L0 := simplefinMerge [] [c0] "2025-01-03" (fun _ => "t0")
    let recat : Transaction :=
      { id := "t0", date := "2025-01-02", description := "Coffee (Checking)",
        amount := 4, type := "expense", category := "Food" }
    let L1 := editTransaction "t0" recat L0
    L0.length = 1 ∧ L1 = [recat]
      ∧ (simplefinMerge L1 [c0] "2025-02-01" (fun _ => "t1")).length = 2 := by
  exact ⟨by decide, by decide, by decide⟩

theorem candFp_update_externalId (c : Candidate) (e : String) :
    candFp { c with externalId := e } = candFp c := rfl

theorem dedupFilter_map_update (f : Candidate → String) :
    ∀ (cs : List Candidate) (seen : List String),
      dedupFilter seen (cs.map (fun c => { c with externalId := f c }))
        = (dedupFilter seen cs).map (fun c => { c with externalId := f c }) := by
  intro cs
  induction cs with
  | nil => intro seen; rfl
  | cons a cs ih =>
    intro seen
    rw [List.map_cons, dedupFilter, dedupFilter, candFp_update_externalId]
    by_cases hm : candFp a ∈ seen
    · rw [if_pos hm, if_pos hm, ih seen]
    · rw [if_neg hm, if_neg hm, List.map_cons, ih (candFp a :: seen)]

/-- C1 amended: the ingestion path deduplicates solely by content
fingerprint; `externalId` has no effect at all — rewriting every
candidate's `externalId` by an arbitrary function leaves the merged
ledger unchanged.  Consequently a candidate whose `externalId` matches an
already-imported entry is still appended whenever its content fingerprint
differs from every existing one (`C1_counterexample`). -/
theorem C1_externalId_ignored (L : List Transaction) (batch : List Candidate)
    (today : String) (ids : Nat → String) (f : Candidate → String) :
    simplefinMerge L (batch.map (fun c => { c with externalId := f c })) today ids
      = simplefinMerge L batch today ids := by
  show L ++ _ = L ++ _
  rw [dedupFilter_map_update f batch (L.map txFp)]
  congr 1
  rw [List.enum_map, List.map_map]
  apply List.map_congr_left
  intro p _
  rfl

/-! ## Windowed sync scheduler (`functions/api/sync.ts`, `action === 'sync'`) -/

def secondsPerDay : Int := 24 * 60 * 60

/-- The bridge's per-request span cap (60 days). -/
def maxDaysPerRequest : Int := 60

def maxRangeSeconds : Int := maxDaysPerRequest * secondsPerDay

/-- The incremental overlap (2 days) for late-posting transactions. -/
def overlapSeconds : Int := 2 * secondsPerDay

/-- Constant `MAX_DAYS_BACK` of the source. -/
def maxDaysBack : Int := 366

/-- The bridge guideline enforced before the fetch loop: 24 requests/day. -/
def maxRequestsPerDay : Nat := 24

/-- A request window `[start, stop)` in epoch seconds (`stop` is `end` in
the source; `end` is a keyword in Lean). -/
structure Window where
  start : Int
  stop : Int
deriving DecidableEq, Repr

/-- The chunking loop
`for (let s = globalStart; s < end; s += maxRangeSeconds)` of backfill
mode; each chunk is `{ start: s, end: min(end, s + maxRangeSeconds) }`. -/
def buildChunks (stop : Int) (s : Int) : List Window :=
  if _h : s < stop then
    { start := s, stop := min stop (s + maxRangeSeconds) }
      :: buildChunks stop (s + maxRangeSeconds)
  else []
termination_by (stop - s).toNat
decreasing_by
  simp only [maxRangeSeconds, maxDaysPerRequest, secondsPerDay]
  omega

/-- JS `Math.max(1, Math.min(MAX_DAYS_BACK, Math.floor(body.daysBack)))`, with
default 60 when `daysBack` is absent or not a finite number. -/
def clampDaysBack (raw : Option Int) : Int :=
  match raw with
  | some d => max 1 (min maxDaysBack d)
  | none => 60

/-- The `typeof x === 'number' && x > 0 ? x : null` filter on the stored cursor. -/
def effLastSync (v : Option Int) : Option Int :=
  match v with
  | some l => if 0 < l then some l else none
  | none => none

/-- The window planning of the sync action (lines 708–726): backfill mode
chunks `[max(0, now - reqDays·86400), now)` into 60-day windows ignoring
the cursor; incremental mode honors the cursor (with a 2-day overlap,
never exceeding the requested range) and plans a single window. -/
def planChunks (now reqDays : Int) (lastSync : Option Int) : List Window :=
  if maxDaysPerRequest < reqDays then
    buildChunks now (max 0 (now - reqDays * secondsPerDay))
  else
    let maxRangeStart := now - reqDays * secondsPerDay
    let start :=
      match lastSync with
      | some ls => max maxRangeStart (max 0 (ls - overlapSeconds))
      | none => maxRangeStart
    [{ start := start, stop := now }]

/-- The per-user stored record (`SyncData`), restricted to the fields the
claims speak about; `transactions` stands for the user's ledger payload. -/
structure UserRecord where
  passwordHash : String
  transactions : List Transaction
  simplefinAccessUrl : Option String := none
  simplefinLastSyncEpoch : Option Int := none
  lastUpdated : String := ""
deriving DecidableEq, Repr

inductive SyncResult where
  | notConnected
  | capacityError (planned : Nat)
  | fetchError
  | success (cursor : Int)
deriving DecidableEq, Repr

/-- Outcome of one sync invocation: the stored record after the round, the
reported result, and how many feed requests were issued. -/
structure SyncStep where
  record : UserRecord
  result : SyncResult
  requests : Nat
deriving DecidableEq, Repr

/-- The part of the sync action from the planned chunk list on: the
capacity check (`chunks.length > 24` fails before any fetch), then the
sequential `fetchChunk` loop (`fetchOk` says whether a window's request
succeeds; the first failure throws out of the handler, so the `KV.put` of
the updated record is only reached when every chunk succeeded, and the
cursor is then set to the round's request-time `end`). -/
def executeRound (rec : UserRecord) (now : Int) (nowIso : String)
    (fetchOk : Window → Bool) (chunks : List Window) : SyncStep :=
  if maxRequestsPerDay < chunks.length then
    { record := rec, result := .capacityError chunks.length, requests := 0 }
  else if chunks.all fetchOk then
    { record := { rec with simplefinLastSyncEpoch := some now, lastUpdated := nowIso },
      result := .success now, requests := chunks.length }
  else
    { record := rec, result := .fetchError,
      requests := (chunks.takeWhile fetchOk).length + 1 }

/-- The `action === 'sync'` branch: requires a connected feed, clamps the
requested range, plans the windows, and runs the round. -/
def syncAction (rec : UserRecord) (daysBackRaw : Option Int) (now : Int)
    (nowIso : String) (fetchOk : Window → Bool) : SyncStep :=
  match rec.simplefinAccessUrl with
  | none => { record := rec, result := .notConnected, requests := 0 }
  | some _ =>
    executeRound rec now nowIso fetchOk
      (planChunks now (clampDaysBack daysBackRaw) (effLastSync rec.simplefinLastSyncEpoch))

/-- The `action === 'claim'` success path: store the new access URL and
reset the last-sync marker. -/
def claimAction (rec : UserRecord) (accessUrl nowIso : String) : UserRecord :=
  { rec with simplefinAccessUrl := some accessUrl,
             simplefinLastSyncEpoch := none, lastUpdated := nowIso }

/-- The `action === 'disconnect'` path: clear the access URL and the
last-sync marker. -/
def disconnectAction (rec : UserRecord) (nowIso : String) : UserRecord :=
  { rec with simplefinAccessUrl := none,
             simplefinLastSyncEpoch := none, lastUpdated := nowIso }

/-! ### Lemmas on the chunking loop -/

theorem buildChunks_of_lt (stop s : Int) (h : s < stop) :
    buildChunks stop s
      = { start := s, stop := min stop (s + maxRangeSeconds) }
          :: buildChunks stop (s + maxRangeSeconds) := by
  rw [buildChunks]
  exact dif_pos h

theorem buildChunks_of_ge (stop s : Int) (h : ¬s < stop) :
    buildChunks stop s = [] := by
  rw [buildChunks]
  exact dif_neg h

theorem buildChunks_getElem? (stop : Int) (i : Nat) : ∀ s : Int,
    (buildChunks stop s)[i]? =
      if s + maxRangeSeconds * (i : Int) < stop then
        some { start := s + maxRangeSeconds * (i : Int),
               stop := min stop (s + maxRangeSeconds * ((i : Int) + 1)) }
      else none := by
  induction i with
  | zero =>
    intro s
    by_cases h : s < stop
    · rw [buildChunks_of_lt stop s h]
      simp [h]
    · rw [buildChunks_of_ge stop s h]
      simp only [List.getElem?_nil, Nat.cast_zero, mul_zero, add_zero]
      rw [if_neg h]
  | succ i ih =>
    intro s
    by_cases h : s < stop
    · rw [buildChunks_of_lt stop s h]
      rw [List.getElem?_cons_succ, ih (s + maxRangeSeconds)]
      have e1 : s + maxRangeSeconds + maxRangeSeconds * (i : Int)
          = s + maxRangeSeconds * ((i : Nat) + 1 : Nat) := by
        push_cast
        ring
      have e2 : s + maxRangeSeconds + maxRangeSeconds * ((i : Int) + 1)
          = s + maxRangeSeconds * (((i : Nat) + 1 : Nat) : Int) + maxRangeSeconds := by
        push_cast
        ring
      have e3 : s + maxRangeSeconds * ((((i : Nat) + 1 : Nat) : Int) + 1)
          = s + maxRangeSeconds * (((i : Nat) + 1 : Nat) : Int) + maxRangeSeconds := by
        push_cast
        ring
      rw [e1, e2, e3]
    · rw [buildChunks_of_ge stop s h]
      simp only [List.getElem?_nil]
      rw [if_neg ?_]
      simp only [maxRangeSeconds, maxDaysPerRequest, secondsPerDay] at *
      push_cast
      omega

theorem buildChunks_ind (stop : Int) (P : Int → Prop)
    (step : ∀ s, s < stop → P (s + maxRangeSeconds) → P s)
    (base : ∀ s, ¬s < stop → P s) : ∀ s, P s := by
  have key : ∀ (n : Nat) (s : Int), (stop - s).toNat ≤ n → P s := by
    intro n
    induction n with
    | zero =>
      intro s hs
      apply base
      omega
    | succ n ih =>
      intro s hs
      by_cases h : s < stop
      · refine step s h (ih (s + maxRangeSeconds) ?_)
        simp only [maxRangeSeconds, maxDaysPerRequest, secondsPerDay] at *
        omega
      · exact base s h
  exact fun s => key (stop - s).toNat s le_rfl

theorem buildChunks_getLast_stop (stop : Int) :
    ∀ s : Int, s < stop → (buildChunks stop s).getLast?.map Window.stop = some stop := by
  refine buildChunks_ind stop
    (fun s => s < stop → (buildChunks stop s).getLast?.map Window.stop = some stop) ?_ ?_
  · intro s h ih
    intro _
    rw [buildChunks_of_lt stop s h]
    by_cases h2 : s + maxRangeSeconds < stop
    · rw [buildChunks_of_lt stop _ h2, List.getLast?_cons_cons,
        ← buildChunks_of_lt stop _ h2]
      exact ih h2
    · rw [buildChunks_of_ge stop _ h2]
      have : min stop (s + maxRangeSeconds) = stop := min_eq_left (le_of_not_lt h2)
      simp [this]
  · intro s h hlt
    exact absurd hlt h

theorem buildChunks_chain (stop : Int) : ∀ s : Int,
    List.Chain' (fun w1 w2 => w1.stop = w2.start) (buildChunks stop s) := by
  refine buildChunks_ind stop
    (fun s => List.Chain' (fun w1 w2 => w1.stop = w2.start) (buildChunks stop s)) ?_ ?_
  · intro s h ih
    rw [buildChunks_of_lt stop s h, List.chain'_cons']
    refine ⟨?_, ih⟩
    intro w hw
    by_cases h2 : s + maxRangeSeconds < stop
    · rw [buildChunks_of_lt stop _ h2] at hw
      simp only [List.head?_cons, Option.mem_def, Option.some_inj] at hw
      rw [← hw]
      exact min_eq_right (le_of_lt h2)
    · rw [buildChunks_of_ge stop _ h2] at hw
      simp at hw
  · intro s h
    rw [buildChunks_of_ge stop s h]
    exact List.chain'_nil

theorem buildChunks_cover (stop t : Int) : ∀ s : Int,
    s ≤ t → t < stop → ∃ w ∈ buildChunks stop s, w.start ≤ t ∧ t < w.stop := by
  refine buildChunks_ind stop
    (fun s => s ≤ t → t < stop → ∃ w ∈ buildChunks stop s, w.start ≤ t ∧ t < w.stop) ?_ ?_
  · intro s h ih
    intro h1 h2
    by_cases hcase : t < min stop (s + maxRangeSeconds)
    · refine ⟨{ start := s, stop := min stop (s + maxRangeSeconds) }, ?_, h1, hcase⟩
      rw [buildChunks_of_lt stop s h]
      exact List.mem_cons_self _ _
    · have hge : s + maxRangeSeconds ≤ t := by
        rcases min_cases stop (s + maxRangeSeconds) with ⟨hmin, hle⟩ | ⟨hmin, hle⟩ <;>
          rw [hmin] at hcase <;> omega
      obtain ⟨w, hw, hw1, hw2⟩ := ih hge h2
      refine ⟨w, ?_, hw1, hw2⟩
      rw [buildChunks_of_lt stop s h]
      exact List.mem_cons_of_mem _ hw
  · intro s h h1 h2
    omega

theorem buildChunks_unique (stop s t : Int) (w1 w2 : Window)
    (h1 : w1 ∈ buildChunks stop s) (h2 : w2 ∈ buildChunks stop s)
    (ht1 : w1.start ≤ t) (ht1' : t < w1.stop)
    (ht2 : w2.start ≤ t) (ht2' : t < w2.stop) : w1 = w2 := by
  obtain ⟨i, hi⟩ := List.mem_iff_getElem?.mp h1
  obtain ⟨j, hj⟩ := List.mem_iff_getElem?.mp h2
  rw [buildChunks_getElem?] at hi hj
  split at hi
  case isFalse => cases hi
  case isTrue hci =>
    split at hj
    case isFalse => cases hj
    case isTrue hcj =>
      rw [Option.some_inj] at hi hj
      have hij : i = j := by
        rw [← hi] at ht1 ht1'
        rw [← hj] at ht2 ht2'
        simp only [maxRangeSeconds, maxDaysPerRequest, secondsPerDay] at ht1 ht1' ht2 ht2'
        have hb1 : t < s + 60 * 86400 * ((i : Int) + 1) := lt_of_lt_of_le ht1' (min_le_right _ _)
        have hb2 : t < s + 60 * 86400 * ((j : Int) + 1) := lt_of_lt_of_le ht2' (min_le_right _ _)
        omega
      rw [← hi, ← hj, hij]

theorem buildChunks_length_le : ∀ (k : Nat) (stop s : Int),
    stop - s ≤ maxRangeSeconds * k → (buildChunks stop s).length ≤ k := by
  intro k
  induction k with
  | zero =>
    intro stop s h
    rw [buildChunks_of_ge stop s ?_]
    · simp
    · simp only [Nat.cast_zero, mul_zero] at h
      omega
  | succ k ih =>
    intro stop s h
    by_cases hlt : s < stop
    · rw [buildChunks_of_lt stop s hlt, List.length_cons]
      have : (buildChunks stop (s + maxRangeSeconds)).length ≤ k := by
        apply ih
        simp only [maxRangeSeconds, maxDaysPerRequest, secondsPerDay] at h ⊢
        push_cast at h ⊢
        omega
      omega
    · rw [buildChunks_of_ge stop s hlt]
      simp

theorem takeWhile_length_lt_of_not_all {α : Type} (p : α → Bool) (l : List α)
    (h : ¬l.all p = true) : (l.takeWhile p).length < l.length := by
  induction l with
  | nil => simp at h
  | cons a l ih =>
    by_cases ha : p a = true
    · rw [List.takeWhile_cons_of_pos ha, List.length_cons, List.length_cons]
      have : ¬l.all p = true := by
        intro hall
        exact h (by simp [List.all_cons, ha, hall])
      exact Nat.succ_lt_succ (ih this)
    · rw [List.takeWhile_cons_of_neg (by simpa using ha)]
      simp

/-- C4: for an effective `requestedDaysBack` above the 60-day per-request
cap (backfill mode) and a `now` no earlier than the requested span, the
planned windows ignore the stored cursor, start at
`now - requestedDaysBack` days, end at `now`, chain contiguously (each
window ends where the next begins), are each exactly 60 days wide except
a possibly shorter final window, and cover every instant of
`[now - requestedDaysBack days, now)` exactly once. -/
theorem C4_backfill_windows (now reqDays : Int) (ls ls' : Option Int)
    (h60 : maxDaysPerRequest < reqDays)
    (hnow : reqDays * secondsPerDay ≤ now) :
    planChunks now reqDays ls' = planChunks now reqDays ls
    ∧ planChunks now reqDays ls ≠ []
    ∧ (planChunks now reqDays ls).head?.map Window.start
        = some (now - reqDays * secondsPerDay)
    ∧ (planChunks now reqDays ls).getLast?.map Window.stop = some now
    ∧ List.Chain' (fun w1 w2 => w1.stop = w2.start) (planChunks now reqDays ls)
    ∧ (∀ i : Nat, ∀ w ∈ (planChunks now reqDays ls)[i]?,
        ∀ w' ∈ (planChunks now reqDays ls)[i + 1]?, w.stop - w.start = maxRangeSeconds)
    ∧ (∀ w ∈ planChunks now reqDays ls,
        w.start < w.stop ∧ w.stop - w.start ≤ maxRangeSeconds)
    ∧ (∀ t : Int, now - reqDays * secondsPerDay ≤ t → t < now →
        ∃ w ∈ planChunks now reqDays ls, w.start ≤ t ∧ t < w.stop)
    ∧ (∀ t : Int, ∀ w₁ ∈ planChunks now reqDays ls, ∀ w₂ ∈ planChunks now reqDays ls,
        w₁.start ≤ t → t < w₁.stop → w₂.start ≤ t → t < w₂.stop → w₁ = w₂) := by
  have hplan : ∀ l : Option Int,
      planChunks now reqDays l = buildChunks now (now - reqDays * secondsPerDay) := by
    intro l
    rw [planChunks, if_pos h60]
    congr 1
    exact max_eq_right (by omega)
  have hs0 : now - reqDays * secondsPerDay < now := by
    simp only [maxDaysPerRequest, secondsPerDay] at h60 ⊢
    omega
  refine ⟨by rw [hplan, hplan], ?_, ?_, ?_, ?_, ?_, ?_, ?_, ?_⟩
  · rw [hplan, buildChunks_of_lt _ _ hs0]
    simp
  · rw [hplan, buildChunks_of_lt _ _ hs0]
    simp
  · rw [hplan]
    exact buildChunks_getLast_stop now _ hs0
  · rw [hplan]
    exact buildChunks_chain now _
  · intro i w hw w' hw'
    rw [hplan] at hw hw'
    rw [Option.mem_def, buildChunks_getElem?] at hw hw'
    split at hw
    case isFalse => cases hw
    case isTrue hci =>
      split at hw'
      case isFalse => cases hw'
      case isTrue hci' =>
        rw [Option.some_inj] at hw hw'
        rw [← hw]
        simp only [maxRangeSeconds, maxDaysPerRequest, secondsPerDay] at hci' ⊢
        push_cast at hci' ⊢
        rw [min_eq_right (by omega)]
        ring
  · intro w hw
    rw [hplan] at hw
    obtain ⟨i, hi⟩ := List.mem_iff_getElem?.mp hw
    rw [buildChunks_getElem?] at hi
    split at hi
    case isFalse => cases hi
    case isTrue hci =>
      rw [Option.some_inj] at hi
      rw [← hi]
      constructor
      · exact lt_min hci (by simp only [maxRangeSeconds, maxDaysPerRequest, secondsPerDay]; omega)
      · have := min_le_right now
          (now - reqDays * secondsPerDay + maxRangeSeconds * ((i : Int) + 1))
        simp only [maxRangeSeconds, maxDaysPerRequest, secondsPerDay] at this ⊢
        omega
  · intro t h1 h2
    rw [hplan]
    exact buildChunks_cover now t _ h1 h2
  · intro t w₁ hw₁ w₂ hw₂ a b c d
    rw [hplan] at hw₁ hw₂
    exact buildChunks_unique now _ t w₁ w₂ hw₁ hw₂ a b c d

/-- Witness for `C4_backfill_windows`: the spec's worked example,
`requestedDaysBack = 150` with `now = 150` days — three windows of
widths 60, 60 and 30 days, cursor value irrelevant. -/
theorem C4_backfill_windows_witness :
    (planChunks 12960000 150 none).map (fun w => w.stop - w.start)
        = [5184000, 5184000, 2592000]
      ∧ planChunks 12960000 150 (some 5) = planChunks 12960000 150 none
      ∧ (planChunks 12960000 150 none).getLast?.map Window.stop = some 12960000 := by
  have h := C4_backfill_windows 12960000 150 none (some 5)
    (by norm_num [maxDaysPerRequest]) (by norm_num [secondsPerDay])
  refine ⟨?_, h.1, h.2.2.2.1⟩
  have e0 : planChunks 12960000 150 none = buildChunks 12960000 0 := by
    rw [planChunks, if_pos (by norm_num [maxDaysPerRequest])]
    norm_num [secondsPerDay]
  rw [e0, buildChunks_of_lt _ _ (by norm_num)]
  rw [show (0 : Int) + maxRangeSeconds = 5184000 by
    norm_num [maxRangeSeconds, maxDaysPerRequest, secondsPerDay]]
  rw [buildChunks_of_lt _ _ (by norm_num : (5184000 : Int) < 12960000)]
  rw [show (5184000 : Int) + maxRangeSeconds = 10368000 by
    norm_num [maxRangeSeconds, maxDaysPerRequest, secondsPerDay]]
  rw [buildChunks_of_lt _ _ (by norm_num : (10368000 : Int) < 12960000)]
  rw [show (10368000 : Int) + maxRangeSeconds = 15552000 by
    norm_num [maxRangeSeconds, maxDaysPerRequest, secondsPerDay]]
  rw [buildChunks_of_ge _ _ (by norm_num)]
  norm_num

/-- C8: whenever the planned window count exceeds the daily request cap of
24, the round stops with a capacity error before the fetch loop: the
stored record is returned unchanged and zero feed requests are issued.
(`executeRound` is the sync action from the planned chunk list on;
`syncAction` is `executeRound` applied to `planChunks`.) -/
theorem C8_capacity_fail_fast (rec : UserRecord) (now : Int) (nowIso : String)
    (fetchOk : Window → Bool) (chunks : List Window)
    (h : maxRequestsPerDay < chunks.length) :
    executeRound rec now nowIso fetchOk chunks
      = { record := rec, result := SyncResult.capacityError chunks.length,
          requests := 0 } := by
  rw [executeRound, if_pos h]

/-- Witness for `C8_capacity_fail_fast`: 25 planned windows. -/
theorem C8_capacity_fail_fast_witness :
    let rec0 : UserRecord := { passwordHash := "h", transactions := [] }
    let chunks := List.replicate 25 ({ start := 0, stop := 1 } : Window)
    maxRequestsPerDay < chunks.length
      ∧ executeRound rec0 7 "t" (fun _ => true) chunks
          = { record := rec0, result := SyncResult.capacityError 25, requests := 0 } := by
  intro rec0 chunks
  refine ⟨by decide, ?_⟩
  rw [C8_capacity_fail_fast rec0 7 "t" (fun _ => true) chunks (by decide)]
  decide

/-- C3: the stored cursor changes only as claimed — cleared by `claim`
(new credential) and by `disconnect`; set to the round's request-time
`now` (a parameter of the handler, independent of any transaction data)
exactly when the round ran and every planned window request succeeded; and
on any window failure, capacity error, or missing connection the stored
record — cursor included — is returned entirely unchanged. -/
theorem C3_cursor_lifecycle (rec : UserRecord) (accessUrl nowIso : String)
    (raw : Option Int) (now : Int) (fetchOk : Window → Bool) :
    (claimAction rec accessUrl nowIso).simplefinLastSyncEpoch = none
    ∧ (disconnectAction rec nowIso).simplefinLastSyncEpoch = none
    ∧ (rec.simplefinAccessUrl = none →
        syncAction rec raw now nowIso fetchOk
          = { record := rec, result := SyncResult.notConnected, requests := 0 })
    ∧ (rec.simplefinAccessUrl ≠ none →
        ((planChunks now (clampDaysBack raw)
              (effLastSync rec.simplefinLastSyncEpoch)).length ≤ maxRequestsPerDay →
          (planChunks now (clampDaysBack raw)
              (effLastSync rec.simplefinLastSyncEpoch)).all fetchOk = true →
          (syncAction rec raw now nowIso fetchOk).record
            = { rec with simplefinLastSyncEpoch := some now, lastUpdated := nowIso })
        ∧ ((planChunks now (clampDaysBack raw)
              (effLastSync rec.simplefinLastSyncEpoch)).all fetchOk = false →
          (syncAction rec raw now nowIso fetchOk).record = rec)
        ∧ (maxRequestsPerDay < (planChunks now (clampDaysBack raw)
              (effLastSync rec.simplefinLastSyncEpoch)).length →
          (syncAction rec raw now nowIso fetchOk).record = rec)) := by
  refine ⟨rfl, rfl, ?_, ?_⟩
  · intro hnone
    rw [syncAction, hnone]
  · intro hsome
    obtain ⟨u, hu⟩ := Option.ne_none_iff_exists'.mp hsome
    refine ⟨?_, ?_, ?_⟩
    · intro hlen hall
      rw [syncAction, hu]
      rw [executeRound, if_neg (not_lt.mpr hlen), if_pos hall]
      simp [hu]
    · intro hfail
      rw [syncAction, hu]
      by_cases hcap : maxRequestsPerDay
          < (planChunks now (clampDaysBack raw) (effLastSync rec.simplefinLastSyncEpoch)).length
      · rw [executeRound, if_pos hcap]
      · rw [executeRound, if_neg hcap, if_neg (by rw [hfail]; exact Bool.false_ne_true)]
    · intro hcap
      rw [syncAction, hu]
      rw [executeRound, if_pos hcap]

/-- Witness for `C3_cursor_lifecycle`: a connected record with a stale
cursor; an all-success incremental round advances the cursor to `now`, an
all-failure round leaves the record unchanged, and claim/disconnect clear
the cursor. -/
theorem C3_cursor_lifecycle_witness :
    let rec0 : UserRecord :=
      { passwordHash := "h", transactions := [],
        simplefinAccessUrl := some "https://u:p@bridge/x",
        simplefinLastSyncEpoch := some 100, lastUpdated := "t0" }
    (claimAction rec0 "https://u2:p2@bridge/y" "t1").simplefinLastSyncEpoch = none
      ∧ (disconnectAction rec0 "t1").simplefinLastSyncEpoch = none
      ∧ (syncAction rec0 (some 10) 2000000 "t1" (fun _ => true)).record
          = { rec0 with simplefinLastSyncEpoch := some 2000000, lastUpdated := "t1" }
      ∧ (syncAction rec0 (some 10) 2000000 "t1" (fun _ => false)).record = rec0 := by
  intro rec0
  have hgood := C3_cursor_lifecycle rec0 "https://u2:p2@bridge/y" "t1" (some 10) 2000000
    (fun _ => true)
  have hbad := C3_cursor_lifecycle rec0 "https://u2:p2@bridge/y" "t1" (some 10) 2000000
    (fun _ => false)
  exact ⟨hgood.1, hbad.2.1,
    (hgood.2.2.2 (by decide)).1 (by decide) (by decide),
    (hbad.2.2.2 (by decide)).2.1 (by decide)⟩

/-- C10 (implicit): the effective `daysBack` is clamped to `[1, 366]`
before windowing, so every round plans at most 7 windows
(`⌈366/60⌉ = 7`); the capacity-error branch of the sync action is
therefore unreachable and at most 7 feed requests are ever issued,
whatever the caller supplies. -/
theorem C10_sync_request_bound (rec : UserRecord) (raw : Option Int) (now : Int)
    (nowIso : String) (fetchOk : Window → Bool) :
    1 ≤ clampDaysBack raw ∧ clampDaysBack raw ≤ maxDaysBack
    ∧ (planChunks now (clampDaysBack raw)
        (effLastSync rec.simplefinLastSyncEpoch)).length ≤ 7
    ∧ (∀ n, (syncAction rec raw now nowIso fetchOk).result ≠ SyncResult.capacityError n)
    ∧ (syncAction rec raw now nowIso fetchOk).requests ≤ 7 := by
  have hclamp1 : 1 ≤ clampDaysBack raw := by
    cases raw with
    | none => norm_num [clampDaysBack]
    | some d => simp [clampDaysBack]
  have hclamp2 : clampDaysBack raw ≤ maxDaysBack := by
    cases raw with
    | none => norm_num [clampDaysBack, maxDaysBack]
    | some d =>
      simp only [clampDaysBack, maxDaysBack] at *
      omega
  have hlen : ∀ l : Option Int, (planChunks now (clampDaysBack raw) l).length ≤ 7 := by
    intro l
    rw [planChunks]
    by_cases hmode : maxDaysPerRequest < clampDaysBack raw
    · rw [if_pos hmode]
      apply buildChunks_length_le
      rcases max_cases 0 (now - clampDaysBack raw * secondsPerDay) with ⟨hm, hle⟩ | ⟨hm, hle⟩ <;>
        rw [hm] <;>
        simp only [maxRangeSeconds, maxDaysPerRequest, secondsPerDay, maxDaysBack] at * <;>
        push_cast <;>
        omega
    · rw [if_neg hmode]
      simp
  refine ⟨hclamp1, hclamp2, hlen _, ?_, ?_⟩
  all_goals
    rw [syncAction]
    cases hacc : rec.simplefinAccessUrl with
    | none => simp
    | some u =>
      have hcap : ¬maxRequestsPerDay < (planChunks now (clampDaysBack raw)
          (effLastSync rec.simplefinLastSyncEpoch)).length := by
        have := hlen (effLastSync rec.simplefinLastSyncEpoch)
        simp only [maxRequestsPerDay]
        omega
      rw [executeRound, if_neg hcap]
      by_cases hall : (planChunks now (clampDaysBack raw)
          (effLastSync rec.simplefinLastSyncEpoch)).all fetchOk = true
      · rw [if_pos hall]
        first
        | exact fun n => by simp
        | exact hlen _
      · rw [if_neg hall]
        first
        | exact fun n => by simp
        | · have hlt := takeWhile_length_lt_of_not_all fetchOk _ hall
            have := hlen (effLastSync rec.simplefinLastSyncEpoch)
            simp only []
            omega

/-! ## Cashflow aggregator (C7, `SummaryCards.tsx`) -/

/-- Substring search (JS `String.prototype.includes`) over a character
list. -/
def containsAux (pat : List Char) : List Char → Bool
  | [] => pat.isEmpty
  | c :: rest => (pat == (c :: rest).take pat.length) || containsAux pat rest

/-- JS `s.includes(pat)`. -/
def strContains (s pat : String) : Bool := containsAux pat.data s.data

/-- The transfer heuristic of the `cashflow` memo:
`(desc || '').toLowerCase()` contains one of the transfer markers. -/
def isTransferDesc (desc : String) : Bool :=
  let d := jsToLower desc
  strContains d "transfer to" || strContains d "transfer from"
    || strContains d "trf to" || strContains d "trf fr"
    || strContains d "overdraft transfer"

/-- JS `.filter((x): x is string => Boolean(x))` on an optional id: empty
strings and missing values are dropped. -/
def optTruthy : Option String → Option String
  | some s => if s = "" then none else some s
  | none => none

/-- The `chargedDebtIds` set of the source: the (truthy) debt-account ids of
in-period `debt-charge` **or** `debt-interest` entries. -/
def chargedDebtIds (tx : List Transaction) : List String :=
  (tx.filter (fun t => t.type = "debt-charge" || t.type = "debt-interest")).filterMap
    (fun t => optTruthy t.debtAccountId)

/-- The period filter applied before aggregation:
`transactions.filter(t => t.date.startsWith(periodKey))`. -/
def periodTx (transactions : List Transaction) (periodKey : String) : List Transaction :=
  transactions.filter (fun t => strStartsWith t.date periodKey)

structure Cashflow where
  income : ℚ
  spend : ℚ
  debtPayments : ℚ
  savings : ℚ
  cashLeft : ℚ
  savingsRate : ℚ
  debtPayoffRate : ℚ
deriving DecidableEq, Repr

/-- The `cashflow` memo of `SummaryCards.tsx` (lines 160–202) on the
period-filtered entries `tx`. -/
def cashflow (tx : List Transaction) : Cashflow :=
  let income := (tx.filter (fun t => t.type = "income")).foldl
    (fun acc t => acc + t.amount) 0
  let spend := (tx.filter (fun t =>
      (t.type = "expense" && !isTransferDesc t.description)
        || t.type = "debt-charge" || t.type = "debt-interest")).foldl
    (fun acc t => acc + t.amount) 0
  let debtPayments := (tx.filter (fun t =>
      t.type = "debt" || t.type = "debt-payment")).foldl
    (fun acc t => acc + t.amount) 0
  let charged := chargedDebtIds tx
  let debtPaymentsLoanOnly := (tx.filter (fun t =>
      (t.type = "debt" || t.type = "debt-payment")
        && (match t.debtAccountId with
            | none => true
            | some a => a = "" || !charged.contains a))).foldl
    (fun acc t => acc + t.amount) 0
  let savings := (tx.filter (fun t => t.type = "asset-deposit")).foldl
    (fun acc t => acc + t.amount) 0
  let cashLeft := income - (spend + savings + debtPaymentsLoanOnly)
  let savingsRate := if 0 < income then savings / income else 0
  let debtPayoffRate := if 0 < income then debtPayments / income else 0
  { income := income, spend := spend, debtPayments := debtPayments,
    savings := savings, cashLeft := cashLeft, savingsRate := savingsRate,
    debtPayoffRate := debtPayoffRate }

/-- Spec-side sum over the entries satisfying `p`. -/
def typeSum (tx : List Transaction) (p : Transaction → Bool) : ℚ :=
  ((tx.filter p).map (fun t => t.amount)).sum

def incomeSum (tx : List Transaction) : ℚ := typeSum tx (fun t => t.type = "income")

def spendSum (tx : List Transaction) : ℚ :=
  typeSum tx (fun t => (t.type = "expense" && !isTransferDesc t.description)
    || t.type = "debt-charge" || t.type = "debt-interest")

def savingsSum (tx : List Transaction) : ℚ :=
  typeSum tx (fun t => t.type = "asset-deposit")

def debtPaySum (tx : List Transaction) : ℚ :=
  typeSum tx (fun t => t.type = "debt" || t.type = "debt-payment")

/-- Claim C7's exclusion rule, verbatim: the account "also received
charges in the same period" — `debt-charge` entries only. -/
def claimAccountCharged (tx : List Transaction) (accId : String) : Bool :=
  tx.any (fun c => c.type = "debt-charge" && c.debtAccountId = some accId)

/-- Debt payments kept in the subtraction under claim C7's wording. -/
def claimPayExcl (tx : List Transaction) : ℚ :=
  typeSum tx (fun t => (t.type = "debt" || t.type = "debt-payment")
    && !(match t.debtAccountId with
         | some a => claimAccountCharged tx a
         | none => false))

/-- Definition of `cashLeft` exactly as claim C7 states it. -/
def claimCashLeft (tx : List Transaction) : ℚ :=
  incomeSum tx - (spendSum tx + savingsSum tx + claimPayExcl tx)

/-- The amended exclusion rule, matching the code: the payment's account
received `debt-charge` **or** `debt-interest` entries in the period
(accounts are compared through truthy — non-empty — links). -/
def amendedAccountCharged (tx : List Transaction) (accId : String) : Bool :=
  tx.any (fun c => (c.type = "debt-charge" || c.type = "debt-interest")
    && optTruthy c.debtAccountId = some accId)

/-- Debt payments kept in the subtraction under the amended rule. -/
def amendedPayExcl (tx : List Transaction) : ℚ :=
  typeSum tx (fun t => (t.type = "debt" || t.type = "debt-payment")
    && !(match optTruthy t.debtAccountId with
         | some a => amendedAccountCharged tx a
         | none => false))

theorem foldl_filter_amount (tx : List Transaction) (p : Transaction → Bool) :
    (tx.filter p).foldl (fun acc t => acc + t.amount) 0 = typeSum tx p := by
  rw [foldl_add_amount, zero_add, typeSum]

theorem bool_eq_of_iff {a b : Bool} (h : a = true ↔ b = true) : a = b := by
  cases a <;> cases b <;> simp_all

theorem charged_contains_iff (tx : List Transaction) (a : String) :
    (chargedDebtIds tx).contains a = amendedAccountCharged tx a := by
  apply bool_eq_of_iff
  simp only [chargedDebtIds, amendedAccountCharged, List.contains_iff_exists_mem_beq,
    beq_iff_eq, List.mem_filterMap, List.mem_filter, List.any_eq_true,
    Bool.and_eq_true, decide_eq_true_eq]
  constructor
  · rintro ⟨b, ⟨t, ⟨ht, hq⟩, hf⟩, hab⟩
    exact ⟨t, ht, hq, by rw [hf, hab]⟩
  · rintro ⟨t, ht, hq, hf⟩
    exact ⟨a, ⟨t, ⟨ht, hq⟩, hf⟩, rfl⟩

/-- C7 counterexample: one `debt-payment` of 50 and one `debt-interest`
of 10, both linked to account `d1`, no `debt-charge`.  The code excludes
the payment from `cashLeft`'s subtraction (interest marks the account
"charged"), giving `-10`; the claim's rule ("received charges") keeps it,
giving `-60`. -/
theorem C7_counterexample :
    let pay : Transaction :=
      { id := "p1", date := "2025-01-10", description := "Pay", amount := 50,
        type := "debt-payment", category := "Debt", debtAccountId := some "d1" }
    let intr : Transaction :=
      { id := "i1", date := "2025-01-11", description := "Fee", amount := 10,
        type := "debt-interest", category := "Fees", debtAccountId := some "d1" }
    (cashflow [pay, intr]).cashLeft = -10
      ∧ claimCashLeft [pay, intr] = -60
      ∧ (cashflow [pay, intr]).cashLeft ≠ claimCashLeft [pay, intr] := by
  intro pay intr
  have h1 : isTransferDesc "Pay" = false := by decide
  have h2 : isTransferDesc "Fee" = false := by decide
  have h3 : (["d1"] : List String).contains "d1" = true := by decide
  refine ⟨?_, ?_, ?_⟩ <;>
    simp [cashflow, claimCashLeft, incomeSum, spendSum, savingsSum, claimPayExcl,
      typeSum, chargedDebtIds, claimAccountCharged, optTruthy, h1, h2, h3,
      List.filter_cons, List.any_cons] <;>
    norm_num

/-- C7 amended: the aggregator's components equal the spec-side sums, and
`cashLeft = income - (spend + savings + debtPaymentsExcluding…)` holds
with the exclusion rule amended to: a debt-payment is excluded exactly
when its (non-empty) `debtAccountId` belongs to an account that received
`debt-charge` **or** `debt-interest` entries (with non-empty links) in
the period.  The rates are `savings/income` and `debtPayments/income`,
and both are 0 when income is 0 (amounts are non-negative). -/
theorem C7_cashflow_amended (tx : List Transaction)
    (hpos : ∀ t ∈ tx, 0 ≤ t.amount) :
    (cashflow tx).income = incomeSum tx
    ∧ (cashflow tx).spend = spendSum tx
    ∧ (cashflow tx).savings = savingsSum tx
    ∧ (cashflow tx).debtPayments = debtPaySum tx
    ∧ (cashflow tx).cashLeft
        = incomeSum tx - (spendSum tx + savingsSum tx + amendedPayExcl tx)
    ∧ (incomeSum tx = 0 →
        (cashflow tx).savingsRate = 0 ∧ (cashflow tx).debtPayoffRate = 0)
    ∧ (incomeSum tx ≠ 0 →
        (cashflow tx).savingsRate = savingsSum tx / incomeSum tx
        ∧ (cashflow tx).debtPayoffRate = debtPaySum tx / incomeSum tx) := by
  have hloan : (tx.filter (fun t =>
      (t.type = "debt" || t.type = "debt-payment")
        && (match t.debtAccountId with
            | none => true
            | some a => a = "" || !(chargedDebtIds tx).contains a))).foldl
      (fun acc t => acc + t.amount) 0 = amendedPayExcl tx := by
    rw [foldl_filter_amount, amendedPayExcl, typeSum, typeSum]
    have hfe : tx.filter (fun t =>
        (t.type = "debt" || t.type = "debt-payment")
          && (match t.debtAccountId with
              | none => true
              | some a => a = "" || !(chargedDebtIds tx).contains a))
        = tx.filter (fun t => (t.type = "debt" || t.type = "debt-payment")
            && !(match optTruthy t.debtAccountId with
                 | some a => amendedAccountCharged tx a
                 | none => false)) := by
      apply List.filter_congr
      intro t _
      cases hda : t.debtAccountId with
      | none => simp [optTruthy]
      | some a =>
        by_cases ha : a = ""
        · simp [optTruthy, ha]
        · simp only [optTruthy, if_neg ha, charged_contains_iff tx a]
          simp [ha]
    rw [hfe]
  have hnn : 0 ≤ incomeSum tx := by
    apply List.sum_nonneg
    intro x hx
    obtain ⟨t, ht, rfl⟩ := List.mem_map.mp hx
    exact hpos t (List.mem_of_mem_filter ht)
  refine ⟨foldl_filter_amount tx _, foldl_filter_amount tx _, foldl_filter_amount tx _,
    foldl_filter_amount tx _, ?_, ?_, ?_⟩
  · show (tx.filter _).foldl _ 0 - ((tx.filter _).foldl _ 0 + (tx.filter _).foldl _ 0
        + (tx.filter _).foldl _ 0) = _
    rw [hloan, foldl_filter_amount, foldl_filter_amount, foldl_filter_amount]
    rfl
  · intro hzero
    have : ¬(0 : ℚ) < (tx.filter (fun t => t.type = "income")).foldl
        (fun acc t => acc + t.amount) 0 := by
      rw [foldl_filter_amount]
      rw [incomeSum] at hzero
      simp [hzero]
    constructor <;>
      · show (if _ then _ else _) = (0 : ℚ)
        rw [if_neg this]
  · intro hne
    have : (0 : ℚ) < (tx.filter (fun t => t.type = "income")).foldl
        (fun acc t => acc + t.amount) 0 := by
      rw [foldl_filter_amount]
      exact lt_of_le_of_ne hnn (fun h => hne h.symm)
    constructor <;>
      · show (if _ then _ else _) = _
        rw [if_pos this, foldl_filter_amount, foldl_filter_amount]
        rfl

/-- Witness for `C7_cashflow_amended`: income 100 and an asset deposit of
25; `cashLeft = 75` and `savingsRate = 1/4`. -/
theorem C7_cashflow_amended_witness :
    let inc : Transaction :=
      { id := "a", date := "2025-04-01", description := "Salary",
        amount := 100, type := "income", category := "Job" }
    let dep : Transaction :=
      { id := "b", date := "2025-04-02", description := "Save",
        amount := 25, type := "asset-deposit", category := "Savings" }
    (cashflow [inc, dep]).cashLeft
        = incomeSum [inc, dep]
          - (spendSum [inc, dep] + savingsSum [inc, dep] + amendedPayExcl [inc, dep])
      ∧ (cashflow [inc, dep]).savingsRate
          = savingsSum [inc, dep] / incomeSum [inc, dep]
      ∧ (cashflow [inc, dep]).savingsRate = 1/4 := by
  intro inc dep
  have hpos : ∀ t ∈ [inc, dep], 0 ≤ t.amount := by
    intro t ht
    rcases List.mem_cons.mp ht with rfl | ht
    · norm_num
    · rcases List.mem_cons.mp ht with rfl | ht
      · norm_num
      · cases ht
  have hs1 : isTransferDesc "Salary" = false := by decide
  have hs2 : isTransferDesc "Save" = false := by decide
  have h := C7_cashflow_amended [inc, dep] hpos
  have hie : incomeSum [inc, dep] = 100 := by
    simp [incomeSum, typeSum, List.filter_cons]
  have hse : savingsSum [inc, dep] = 25 := by
    simp [savingsSum, typeSum, List.filter_cons]
  refine ⟨h.2.2.2.2.1, (h.2.2.2.2.2.2 (by rw [hie]; norm_num)).1, ?_⟩
  rw [(h.2.2.2.2.2.2 (by rw [hie]; norm_num)).1, hie, hse]
  norm_num

end BudgetApp
